import Mathlib

/-!
Verification of the report document assembler of `model_maker`
(source: `src/unnamed/part_000`, the revision containing the export code).

The assembler consists of:
* `toCsv` (source line 338): the delimited table encoder;
* `buildReportLines` / `buildReportCsvRows` (355 / 427): the table flattener;
* `escapePdfText` (498) and `wrapText` (501): text escaping and greedy word wrap;
* `buildPdf` (525): the paginator and binary (PDF) document assembler.

Strings of the source are modelled as `List Char`; byte lengths (the source
uses `TextEncoder`, i.e. UTF-8) are modelled by an explicit per-character
UTF-8 width function.  All definitions are executable.
-/

set_option autoImplicit false

namespace ModelMaker

/-- A JavaScript string, modelled as its list of Unicode code points. -/
abbrev Str := List Char

/-- UTF-8 byte width of a single code point, as produced by `TextEncoder`. -/
def charBytes (c : Char) : Nat :=
  if c.val < 0x80 then 1
  else if c.val < 0x800 then 2
  else if c.val < 0x10000 then 3
  else 4

/-- UTF-8 byte length of a string: `encoder.encode(s).length` in the source. -/
def byteLen (s : Str) : Nat := (s.map charBytes).sum

/-- Decimal rendering of a natural number, as JavaScript template literals do. -/
def natToStr (n : Nat) : Str := (toString n).toList

/-- Decimal rendering of an integer, as JavaScript template literals do. -/
def intToStr (n : Int) : Str := (toString n).toList

/-- `String.prototype.split` with a one-character separator: `text.split(" ")`
in `wrapText` (source line 505).  `"".split(sep)` is `[""]`, a separator at
either end contributes an empty field. -/
def splitOnChar (sep : Char) : Str → List Str
  | [] => [[]]
  | c :: rest =>
    match splitOnChar sep rest with
    | [] => [[]]
    | w :: ws => if c = sep then [] :: w :: ws else (c :: w) :: ws

/-- One iteration of the `words.forEach` loop of `wrapText` (source lines
508-518).  The accumulator is the pair `(lines, currentLine)`; JavaScript
string truthiness (`currentLine ? ... : ...`) is non-emptiness. -/
def wrapStep (maxLength : Nat) (acc : List Str × Str) (word : Str) : List Str × Str :=
  let candidate := if acc.2 = [] then word else acc.2 ++ ' ' :: word
  if maxLength < candidate.length then
    (if acc.2 = [] then acc.1 else acc.1 ++ [acc.2], word)
  else
    (acc.1, candidate)

/-- The final flush of `wrapText` (source lines 519-521): append the pending
`currentLine` to the collected lines when it is non-empty. -/
def wrapFinish (acc : List Str × Str) : List Str :=
  if acc.2 = [] then acc.1 else acc.1 ++ [acc.2]

/-- `wrapText` (source lines 501-523): greedy word wrap of one logical line.
Empty input returns `[""]`; otherwise the line is split on single spaces and
words are packed greedily; the final `currentLine` is appended if non-empty. -/
def wrapText (text : Str) (maxLength : Nat) : List Str :=
  if text = [] then [[]]
  else wrapFinish ((splitOnChar ' ' text).foldl (wrapStep maxLength) ([], []))

/-- The slicing loop of `buildPdf` (source lines 535-537):
`for (index = 0; index < len; index += lpp) pages.push(slice(index, index+lpp))`.
For `lpp ≥ 1` each chunk is `xs.take lpp` followed by chunking `xs.drop lpp`. -/
def chunkList {α : Type} (lpp : Nat) : List α → List (List α)
  | [] => []
  | x :: xs => (x :: xs.take (lpp - 1)) :: chunkList lpp (xs.drop (lpp - 1))
termination_by l => l.length
decreasing_by
  simp only [List.length_drop, List.length_cons]
  omega

/-- The paginator of `buildPdf` (source lines 534-540): slice the wrapped
lines into pages of `lpp` lines, then `if (pages.length === 0) pages.push([""])`. -/
def paginate (lpp : Nat) (ls : List Str) : List (List Str) :=
  let pages := chunkList lpp ls
  if pages = [] then [[[]]] else pages

/-- `cell.replace(/"/g, '""')` in `toCsv` (source line 342). -/
def csvEscapeCell (cell : Str) : Str :=
  cell.flatMap (fun c => if c = '"' then ['"', '"'] else [c])

/-- One encoded cell of `toCsv`: the cell wrapped in double quotes with the
interior double quotes doubled (source line 342). -/
def csvCell (cell : Str) : Str := '"' :: (csvEscapeCell cell ++ ['"'])

/-- One encoded record of `toCsv`: the quoted cells comma-joined (source
lines 341-344). -/
def csvRecord (row : List Str) : Str := List.intercalate [','] (row.map csvCell)

/-- `toCsv` (source lines 338-345): records newline-joined, no trailing
terminator. -/
def toCsv (rows : List (List Str)) : Str := List.intercalate ['\n'] (rows.map csvRecord)

/-- The whitespace-delimited token sequence of a string: the space-separated
fields with the empty fields dropped.  (The source splits on the single space
character, so the space character is the token separator throughout.) -/
def tokens (s : Str) : List Str :=
  (splitOnChar ' ' s).filter (fun w => !w.isEmpty)

/-! ### Lemmas about splitting, joining and tokens -/

theorem intercalate_nil (sep : Str) : List.intercalate sep ([] : List Str) = [] := by
  simp [List.intercalate]

theorem intercalate_single (sep : Str) (x : Str) : List.intercalate sep [x] = x := by
  simp [List.intercalate]

theorem intercalate_cons_cons (sep x y : Str) (t : List Str) :
    List.intercalate sep (x :: y :: t) = x ++ sep ++ List.intercalate sep (y :: t) := by
  simp [List.intercalate, List.intersperse]

theorem splitOnChar_ne_nil (sep : Char) (s : Str) : splitOnChar sep s ≠ [] := by
  cases s with
  | nil => simp [splitOnChar]
  | cons c rest =>
    simp only [splitOnChar]
    cases hr : splitOnChar sep rest with
    | nil => simp
    | cons w ws =>
      by_cases hc : c = sep <;> simp [hc]

theorem splitOnChar_cons (sep c : Char) (rest : Str) (w0 : Str) (ws : List Str)
    (hr : splitOnChar sep rest = w0 :: ws) :
    splitOnChar sep (c :: rest) =
      if c = sep then [] :: w0 :: ws else (c :: w0) :: ws := by
  simp only [splitOnChar, hr]

theorem splitOnChar_sep_not_mem (sep : Char) (s : Str) :
    ∀ w ∈ splitOnChar sep s, sep ∉ w := by
  induction s with
  | nil =>
    intro w hw
    simp [splitOnChar] at hw
    simp [hw]
  | cons c rest ih =>
    intro w hw
    cases hr : splitOnChar sep rest with
    | nil => exact absurd hr (splitOnChar_ne_nil sep rest)
    | cons w0 ws =>
      rw [splitOnChar_cons sep c rest w0 ws hr] at hw
      by_cases hc : c = sep
      · rw [if_pos hc, List.mem_cons] at hw
        rcases hw with hw | hw
        · simp [hw]
        · exact ih w (hr ▸ hw)
      · rw [if_neg hc, List.mem_cons] at hw
        rcases hw with hw | hw
        · subst hw
          intro hmem
          rw [List.mem_cons] at hmem
          rcases hmem with hmem | hmem
          · exact hc hmem.symm
          · exact ih w0 (hr ▸ List.mem_cons_self w0 ws) hmem
        · exact ih w (hr ▸ List.mem_cons_of_mem w0 hw)

theorem splitOnChar_len_le (sep : Char) (s : Str) :
    ∀ w ∈ splitOnChar sep s, w.length ≤ s.length := by
  induction s with
  | nil =>
    intro w hw
    simp [splitOnChar] at hw
    simp [hw]
  | cons c rest ih =>
    intro w hw
    cases hr : splitOnChar sep rest with
    | nil => exact absurd hr (splitOnChar_ne_nil sep rest)
    | cons w0 ws =>
      rw [splitOnChar_cons sep c rest w0 ws hr] at hw
      by_cases hc : c = sep
      · rw [if_pos hc, List.mem_cons] at hw
        rcases hw with hw | hw
        · simp [hw]
        · exact Nat.le_succ_of_le (ih w (hr ▸ hw))
      · rw [if_neg hc, List.mem_cons] at hw
        rcases hw with hw | hw
        · subst hw
          have := ih w0 (hr ▸ List.mem_cons_self w0 ws)
          simpa using this
        · exact Nat.le_succ_of_le (ih w (hr ▸ List.mem_cons_of_mem w0 hw))

theorem splitOnChar_intercalate (sep : Char) (s : Str) :
    List.intercalate [sep] (splitOnChar sep s) = s := by
  induction s with
  | nil => simp [splitOnChar, intercalate_single]
  | cons c rest ih =>
    cases hr : splitOnChar sep rest with
    | nil => exact absurd hr (splitOnChar_ne_nil sep rest)
    | cons w0 ws =>
      rw [splitOnChar_cons sep c rest w0 ws hr]
      rw [hr] at ih
      by_cases hc : c = sep
      · subst hc
        rw [if_pos rfl, intercalate_cons_cons]
        simp [ih]
      · rw [if_neg hc]
        cases ws with
        | nil =>
          rw [intercalate_single] at ih ⊢
          rw [ih]
        | cons y t =>
          rw [intercalate_cons_cons] at ih ⊢
          rw [← ih]
          simp

theorem splitOnChar_append (sep : Char) (a b : Str) :
    splitOnChar sep (a ++ sep :: b) = splitOnChar sep a ++ splitOnChar sep b := by
  induction a with
  | nil =>
    cases hb : splitOnChar sep b with
    | nil => exact absurd hb (splitOnChar_ne_nil sep b)
    | cons w ws =>
      rw [List.nil_append, splitOnChar_cons sep sep b w ws hb, if_pos rfl]
      simp [splitOnChar, hb]
  | cons c a ih =>
    cases ha : splitOnChar sep (a ++ sep :: b) with
    | nil => exact absurd ha (splitOnChar_ne_nil sep _)
    | cons w ws =>
      cases ha2 : splitOnChar sep a with
      | nil => exact absurd ha2 (splitOnChar_ne_nil sep a)
      | cons w2 ws2 =>
        have hcomb : w :: ws = (w2 :: ws2) ++ splitOnChar sep b := by
          rw [← ha, ← ha2, ih]
        rw [List.cons_append] at hcomb ⊢
        rw [splitOnChar_cons sep c _ w ws ha, splitOnChar_cons sep c a w2 ws2 ha2]
        have hw : w = w2 := by
          have := congrArg (fun l => l.headI) hcomb
          simpa using this
        have hws : ws = ws2 ++ splitOnChar sep b := by
          have := congrArg List.tail hcomb
          simpa using this
        by_cases hcs : c = sep
        · rw [if_pos hcs, if_pos hcs, hw, hws]
          rfl
        · rw [if_neg hcs, if_neg hcs, hw, hws]
          rfl

theorem splitOnChar_eq_single (sep : Char) (w : Str) (h : sep ∉ w) :
    splitOnChar sep w = [w] := by
  induction w with
  | nil => simp [splitOnChar]
  | cons c rest ih =>
    have hc : ¬ c = sep := fun he => h (he ▸ List.mem_cons_self c rest)
    have hrest : sep ∉ rest := fun hm => h (List.mem_cons_of_mem c hm)
    rw [splitOnChar_cons sep c rest rest [] (ih hrest), if_neg hc]

theorem splitOnChar_mem_of_mem (sep : Char) (s : Str) (c : Char) (hc : c ∈ s) (hne : c ≠ sep) :
    ∃ w ∈ splitOnChar sep s, c ∈ w := by
  induction s with
  | nil => exact absurd hc (List.not_mem_nil c)
  | cons x rest ih =>
    cases hr : splitOnChar sep rest with
    | nil => exact absurd hr (splitOnChar_ne_nil sep rest)
    | cons w0 ws =>
      rw [splitOnChar_cons sep x rest w0 ws hr]
      rw [List.mem_cons] at hc
      by_cases hx : x = sep
      · rw [if_pos hx]
        rcases hc with hc | hc
        · exact absurd (hc.trans hx) hne
        · obtain ⟨w, hw, hcw⟩ := ih hc
          exact ⟨w, List.mem_cons_of_mem [] (hr ▸ hw), hcw⟩
      · rw [if_neg hx]
        rcases hc with hc | hc
        · exact ⟨x :: w0, List.mem_cons_self _ _, hc ▸ List.mem_cons_self x w0⟩
        · obtain ⟨w, hw, hcw⟩ := ih hc
          rw [hr, List.mem_cons] at hw
          rcases hw with hw | hw
          · exact ⟨x :: w0, List.mem_cons_self _ _, hw ▸ List.mem_cons_of_mem x hcw⟩
          · exact ⟨w, List.mem_cons_of_mem _ hw, hcw⟩

theorem tokens_nil : tokens [] = [] := by
  simp [tokens, splitOnChar]

theorem tokens_append (a b : Str) : tokens (a ++ ' ' :: b) = tokens a ++ tokens b := by
  unfold tokens
  rw [splitOnChar_append, List.filter_append]

theorem tokens_single (w : Str) (h : ' ' ∉ w) :
    tokens w = if w = [] then [] else [w] := by
  unfold tokens
  rw [splitOnChar_eq_single ' ' w h]
  by_cases hw : w = [] <;> simp [hw]

theorem tokens_len_le (l : Str) : ∀ t ∈ tokens l, t.length ≤ l.length := by
  intro t ht
  exact splitOnChar_len_le ' ' l t (List.mem_of_mem_filter ht)

theorem tokens_cons_filter (w : Str) (h : ' ' ∉ w) (ws : List Str) :
    tokens w ++ ws.filter (fun v => !v.isEmpty) = (w :: ws).filter (fun v => !v.isEmpty) := by
  rw [tokens_single w h, List.filter_cons]
  by_cases hw : w = [] <;> simp [hw, List.isEmpty_iff]

theorem tokens_intercalate (L : List Str) :
    tokens (List.intercalate [' '] L) = L.flatMap tokens := by
  induction L with
  | nil => rw [intercalate_nil, tokens_nil, List.flatMap_nil]
  | cons x t ih =>
    cases t with
    | nil => simp [intercalate_single]
    | cons y t2 =>
      rw [intercalate_cons_cons]
      have hx : x ++ [' '] ++ List.intercalate [' '] (y :: t2) =
          x ++ ' ' :: List.intercalate [' '] (y :: t2) := by simp
      rw [hx, tokens_append, ih, List.flatMap_cons, List.flatMap_cons]
      rfl

/-! ### Invariants of the greedy wrap fold -/

theorem wrapFinish_nil_snd (lines : List Str) : wrapFinish (lines, ([] : Str)) = lines := by
  simp [wrapFinish]

theorem wrapFinish_ne_snd (lines : List Str) (cur : Str) (h : ¬ cur = []) :
    wrapFinish (lines, cur) = lines ++ [cur] := by
  simp [wrapFinish, h]

theorem wrapFold_tokens (maxLength : Nat) (words : List Str)
    (hwords : ∀ w ∈ words, ' ' ∉ w) :
    ∀ (lines : List Str) (cur : Str),
      tokens (List.intercalate [' '] (wrapFinish (words.foldl (wrapStep maxLength) (lines, cur)))) =
        lines.flatMap tokens ++ (tokens cur ++ words.filter (fun v => !v.isEmpty)) := by
  induction words with
  | nil =>
    intro lines cur
    rw [List.foldl_nil, List.filter_nil, List.append_nil]
    by_cases hcur : cur = []
    · subst hcur
      rw [wrapFinish_nil_snd, tokens_nil, List.append_nil, tokens_intercalate]
    · rw [wrapFinish_ne_snd lines cur hcur, tokens_intercalate, List.flatMap_append]
      simp
  | cons w ws ih =>
    intro lines cur
    have hw0 : ' ' ∉ w := hwords w (List.mem_cons_self w ws)
    have hws : ∀ v ∈ ws, ' ' ∉ v := fun v hv => hwords v (List.mem_cons_of_mem w hv)
    rw [List.foldl_cons]
    by_cases hcur : cur = []
    · have hstep : wrapStep maxLength (lines, cur) w = (lines, w) := by
        simp [wrapStep, hcur]
      rw [hstep, ih hws lines w, hcur, tokens_nil]
      rw [List.nil_append, tokens_cons_filter w hw0 ws]
    · by_cases hlen : maxLength < (cur ++ ' ' :: w).length
      · have hlen2 : maxLength < cur.length + (w.length + 1) := by simpa using hlen
        have hstep : wrapStep maxLength (lines, cur) w = (lines ++ [cur], w) := by
          simp [wrapStep, hcur, hlen2]
        rw [hstep, ih hws (lines ++ [cur]) w, List.flatMap_append]
        simp [tokens_cons_filter w hw0 ws]
      · have hlen2 : ¬ maxLength < cur.length + (w.length + 1) := by simpa using hlen
        have hstep : wrapStep maxLength (lines, cur) w = (lines, cur ++ ' ' :: w) := by
          simp [wrapStep, hcur, hlen2]
        rw [hstep, ih hws lines (cur ++ ' ' :: w), tokens_append]
        simp [tokens_cons_filter w hw0 ws]

theorem wrapFold_shape (maxLength : Nat) (words : List Str)
    (hwords : ∀ w ∈ words, ' ' ∉ w) :
    ∀ (lines : List Str) (cur : Str),
      (∀ l ∈ lines, l.length ≤ maxLength ∨ ' ' ∉ l) →
      (cur.length ≤ maxLength ∨ ' ' ∉ cur) →
      ∀ l ∈ wrapFinish (words.foldl (wrapStep maxLength) (lines, cur)),
        l.length ≤ maxLength ∨ ' ' ∉ l := by
  induction words with
  | nil =>
    intro lines cur hlines hcur l hl
    rw [List.foldl_nil] at hl
    by_cases hc : cur = []
    · rw [hc, wrapFinish_nil_snd] at hl
      exact hlines l hl
    · rw [wrapFinish_ne_snd lines cur hc, List.mem_append] at hl
      rcases hl with hl | hl
      · exact hlines l hl
      · rw [List.mem_singleton] at hl
        exact hl ▸ hcur
  | cons w ws ih =>
    intro lines cur hlines hcur l hl
    have hw0 : ' ' ∉ w := hwords w (List.mem_cons_self w ws)
    have hws : ∀ v ∈ ws, ' ' ∉ v := fun v hv => hwords v (List.mem_cons_of_mem w hv)
    rw [List.foldl_cons] at hl
    by_cases hc : cur = []
    · have hstep : wrapStep maxLength (lines, cur) w = (lines, w) := by
        simp [wrapStep, hc]
      rw [hstep] at hl
      exact ih hws lines w hlines (Or.inr hw0) l hl
    · by_cases hlen : maxLength < (cur ++ ' ' :: w).length
      · have hlen2 : maxLength < cur.length + (w.length + 1) := by simpa using hlen
        have hstep : wrapStep maxLength (lines, cur) w = (lines ++ [cur], w) := by
          simp [wrapStep, hc, hlen2]
        rw [hstep] at hl
        refine ih hws (lines ++ [cur]) w ?_ (Or.inr hw0) l hl
        intro p hp
        rw [List.mem_append] at hp
        rcases hp with hp | hp
        · exact hlines p hp
        · rw [List.mem_singleton] at hp
          exact hp ▸ hcur
      · have hlen2 : ¬ maxLength < cur.length + (w.length + 1) := by simpa using hlen
        have hstep : wrapStep maxLength (lines, cur) w = (lines, cur ++ ' ' :: w) := by
          simp [wrapStep, hc, hlen2]
        rw [hstep] at hl
        refine ih hws lines (cur ++ ' ' :: w) hlines (Or.inl ?_) l hl
        simp only [List.length_append, List.length_cons]
        omega

theorem wrapFold_ne_nil (maxLength : Nat) (words : List Str) :
    ∀ (lines : List Str) (cur : Str),
      ((∃ w ∈ words, w ≠ []) ∨ lines ≠ [] ∨ cur ≠ []) →
      wrapFinish (words.foldl (wrapStep maxLength) (lines, cur)) ≠ [] := by
  induction words with
  | nil =>
    intro lines cur h
    rw [List.foldl_nil]
    by_cases hc : cur = []
    · rw [hc, wrapFinish_nil_snd]
      rcases h with ⟨w, hw, _⟩ | h | h
      · exact absurd hw (List.not_mem_nil w)
      · exact h
      · exact absurd hc h
    · rw [wrapFinish_ne_snd lines cur hc]
      simp
  | cons w ws ih =>
    intro lines cur h
    rw [List.foldl_cons]
    by_cases hc : cur = []
    · have hstep : wrapStep maxLength (lines, cur) w = (lines, w) := by
        simp [wrapStep, hc]
      rw [hstep]
      refine ih lines w ?_
      by_cases hw : w = []
      · rcases h with ⟨v, hv, hvne⟩ | h | h
        · rw [List.mem_cons] at hv
          rcases hv with hv | hv
          · exact absurd (hv ▸ hvne) (by simp [hw])
          · exact Or.inl ⟨v, hv, hvne⟩
        · exact Or.inr (Or.inl h)
        · exact absurd hc h
      · exact Or.inr (Or.inr hw)
    · by_cases hlen : maxLength < (cur ++ ' ' :: w).length
      · have hlen2 : maxLength < cur.length + (w.length + 1) := by simpa using hlen
        have hstep : wrapStep maxLength (lines, cur) w = (lines ++ [cur], w) := by
          simp [wrapStep, hc, hlen2]
        rw [hstep]
        exact ih (lines ++ [cur]) w (Or.inr (Or.inl (by simp)))
      · have hlen2 : ¬ maxLength < cur.length + (w.length + 1) := by simpa using hlen
        have hstep : wrapStep maxLength (lines, cur) w = (lines, cur ++ ' ' :: w) := by
          simp [wrapStep, hc, hlen2]
        rw [hstep]
        refine ih lines (cur ++ ' ' :: w) (Or.inr (Or.inr ?_))
        simp [hc]

/-- The token sequence of the wrapped output, rejoined with single spaces,
is the token sequence of the input; this holds for every `maxLength`. -/
theorem wrapText_tokens (text : Str) (maxLength : Nat) :
    tokens (List.intercalate [' '] (wrapText text maxLength)) = tokens text := by
  by_cases ht : text = []
  · subst ht
    rw [wrapText, if_pos rfl, intercalate_single, tokens_nil]
  · rw [wrapText, if_neg ht]
    rw [wrapFold_tokens maxLength (splitOnChar ' ' text) (splitOnChar_sep_not_mem ' ' text) [] []]
    rw [tokens_nil, List.flatMap_nil]
    rfl

/-- C4: the claim, as stated for every input string, fails: on the non-empty
all-whitespace input " " the wrapper returns the empty sequence (every split
field is empty, so nothing is ever flushed), not a non-empty sequence. -/
theorem C4_counterexample : wrapText [' '] 5 = [] := by decide

/-- C4 (amended): for every input string and width `W ≥ 1`: the empty input
yields exactly the one-element sequence containing the empty string; any input
containing a non-space character yields a non-empty sequence (a non-empty
input consisting only of spaces yields the empty sequence, the case the
counterexample exhibits); every returned sub-line either has length at most
`W` or contains no space at all (a word is never split); and every token
longer than `W` appears whole as its own sub-line, so the wrapper does not
fail on such input. -/
theorem C4_wrap_shape (text : Str) (maxLength : Nat) (hW : 1 ≤ maxLength) :
    wrapText [] maxLength = [[]] ∧
    ((∃ c ∈ text, c ≠ ' ') → wrapText text maxLength ≠ []) ∧
    (∀ l ∈ wrapText text maxLength, l.length ≤ maxLength ∨ ' ' ∉ l) ∧
    (∀ t ∈ tokens text, maxLength < t.length → t ∈ wrapText text maxLength) := by
  refine ⟨by rw [wrapText, if_pos rfl], ?_, ?_, ?_⟩
  · rintro ⟨c, hc, hcne⟩
    have ht : ¬ text = [] := by
      intro h
      exact List.not_mem_nil c (h ▸ hc)
    rw [wrapText, if_neg ht]
    obtain ⟨w, hw, hcw⟩ := splitOnChar_mem_of_mem ' ' text c hc hcne
    refine wrapFold_ne_nil maxLength (splitOnChar ' ' text) [] [] (Or.inl ⟨w, hw, ?_⟩)
    intro hwnil
    exact List.not_mem_nil c (hwnil ▸ hcw)
  · intro l hl
    by_cases ht : text = []
    · rw [ht, wrapText, if_pos rfl] at hl
      rw [List.mem_singleton] at hl
      subst hl
      exact Or.inl (Nat.le_trans (Nat.zero_le 1) hW)
    · rw [wrapText, if_neg ht] at hl
      exact wrapFold_shape maxLength (splitOnChar ' ' text) (splitOnChar_sep_not_mem ' ' text)
        [] [] (by intro p hp; exact absurd hp (List.not_mem_nil p))
        (Or.inl (Nat.le_trans (Nat.zero_le 1) hW)) l hl
  · intro t ht hlen
    have hrt := wrapText_tokens text maxLength
    rw [tokens_intercalate] at hrt
    have htmem : t ∈ (wrapText text maxLength).flatMap tokens := hrt ▸ ht
    rw [List.mem_flatMap] at htmem
    obtain ⟨l, hlmem, htl⟩ := htmem
    have hshape : l.length ≤ maxLength ∨ ' ' ∉ l := by
      by_cases htxt : text = []
      · rw [htxt, wrapText, if_pos rfl] at hlmem
        rw [List.mem_singleton] at hlmem
        subst hlmem
        exact Or.inl (Nat.le_trans (Nat.zero_le 1) hW)
      · rw [wrapText, if_neg htxt] at hlmem
        exact wrapFold_shape maxLength (splitOnChar ' ' text) (splitOnChar_sep_not_mem ' ' text)
          [] [] (by intro p hp; exact absurd hp (List.not_mem_nil p))
          (Or.inl (Nat.le_trans (Nat.zero_le 1) hW)) l hlmem
    rcases hshape with hshape | hshape
    · exact absurd (Nat.le_trans (tokens_len_le l t htl) hshape) (Nat.not_le_of_lt hlen)
    · rw [tokens_single l hshape] at htl
      by_cases hle : l = []
      · rw [if_pos hle] at htl
        exact absurd htl (List.not_mem_nil t)
      · rw [if_neg hle, List.mem_singleton] at htl
        exact htl ▸ hlmem

/-- Closed instance of `C4_wrap_shape` at width 3 on "hi world": the output is
non-empty, every sub-line fits in 3 characters or is a single unsplit word,
and the over-long token "world" appears whole as its own sub-line. -/
theorem C4_wrap_shape_witness :
    wrapText ("hi world").toList 3 ≠ [] ∧
    (∀ l ∈ wrapText ("hi world").toList 3, l.length ≤ 3 ∨ ' ' ∉ l) ∧
    ("world").toList ∈ wrapText ("hi world").toList 3 := by
  obtain ⟨h1, h2, h3, h4⟩ := C4_wrap_shape ("hi world").toList 3 (by decide)
  exact ⟨h2 ⟨'h', by decide, by decide⟩, h3, h4 ("world").toList (by decide) (by decide)⟩

/-- C5: for every input string and width `W ≥ 1`, joining the returned
sub-lines with single spaces and collapsing whitespace runs reconstructs the
token sequence of the original string (tokens are the non-empty fields of the
space-split; comparing token sequences is exactly comparing the
whitespace-collapsed forms). -/
theorem C5_wrap_round_trip (text : Str) (maxLength : Nat) (hW : 1 ≤ maxLength) :
    tokens (List.intercalate [' '] (wrapText text maxLength)) = tokens text :=
  wrapText_tokens text maxLength

/-- Closed instance of `C5_wrap_round_trip`: wrapping "hello world and hi"
at width 7 and rejoining gives back the original token sequence. -/
theorem C5_wrap_round_trip_witness :
    tokens (List.intercalate [' '] (wrapText ("hello world and hi").toList 7)) =
      tokens ("hello world and hi").toList :=
  C5_wrap_round_trip ("hello world and hi").toList 7 (by decide)

/-! ### The delimited table encoder -/

theorem intercalate_append_single (sep : Str) (L : List Str) (x : Str) :
    List.intercalate sep (L ++ [x]) =
      (if L = [] then [] else List.intercalate sep L ++ sep) ++ x := by
  induction L with
  | nil => rw [List.nil_append, intercalate_single, if_pos rfl, List.nil_append]
  | cons a t ih =>
    rw [if_neg (by simp)]
    cases t with
    | nil =>
      rw [List.cons_append, List.nil_append, intercalate_cons_cons,
        intercalate_single, intercalate_single]
    | cons b t2 =>
      have h1 : (a :: b :: t2) ++ [x] = a :: b :: (t2 ++ [x]) := by simp
      have h2 : b :: (t2 ++ [x]) = (b :: t2) ++ [x] := by simp
      rw [h1, intercalate_cons_cons, h2, ih, if_neg (by simp), intercalate_cons_cons]
      simp [List.append_assoc]

/-- C6: the encoder wraps every cell in double quotes doubling interior
quotes, comma-joins the cells of a record, and newline-joins the records with
no trailing terminator; a zero-cell row yields an empty record and ragged rows
pass through without padding (each record is built from its own cells only);
the documented example row encodes as required.  Stated through: the concrete
example; the empty record; snoc characterisations of the record/row joins
(showing the separator placement and the absence of a trailing terminator);
and a characterisation of the quote-doubling escape. -/
theorem C6_delimited_encoding :
    toCsv [[("Acme, Inc.").toList, ("He said \"hi\"").toList]] =
      ("\"Acme, Inc.\",\"He said \"\"hi\"\"\"").toList ∧
    csvRecord [] = [] ∧
    (∀ rows row, toCsv (rows ++ [row]) =
      (if rows = [] then [] else toCsv rows ++ ['\n']) ++ csvRecord row) ∧
    (∀ row cell, csvRecord (row ++ [cell]) =
      (if row = [] then [] else csvRecord row ++ [',']) ++
        ('"' :: (csvEscapeCell cell ++ ['"']))) ∧
    (∀ a b, csvEscapeCell (a ++ b) = csvEscapeCell a ++ csvEscapeCell b) ∧
    csvEscapeCell ['"'] = ['"', '"'] ∧
    (∀ c, ¬ c = '"' → csvEscapeCell [c] = [c]) ∧
    toCsv [[['a']], [['b'], ['c'], ['d']], []] =
      ("\"a\"\n\"b\",\"c\",\"d\"\n").toList := by
  refine ⟨by decide, rfl, ?_, ?_, ?_, by decide, ?_, by decide⟩
  · intro rows row
    unfold toCsv
    rw [List.map_append, List.map_singleton, intercalate_append_single]
    by_cases h : rows = []
    · rw [if_pos h, if_pos (by simp [h])]
    · rw [if_neg h, if_neg (by simp [h])]
  · intro row cell
    unfold csvRecord
    rw [List.map_append, List.map_singleton, intercalate_append_single]
    by_cases h : row = []
    · rw [if_pos h, if_pos (by simp [h])]
      rfl
    · rw [if_neg h, if_neg (by simp [h])]
      rfl
  · intro a b
    unfold csvEscapeCell
    rw [List.flatMap_append]
  · intro c hc
    simp [csvEscapeCell, hc]

/-- Closed instance of `C6_delimited_encoding`: the escape leaves a
quote-free cell unchanged, and appending a record appends a newline-separated
record with no trailing terminator. -/
theorem C6_delimited_encoding_witness :
    csvEscapeCell ['a'] = ['a'] ∧
    toCsv ([[['x']]] ++ [[['y']]]) = (toCsv [[['x']]] ++ ['\n']) ++ csvRecord [['y']] := by
  obtain ⟨e1, e2, e3, e4, e5, e6, e7, e8⟩ := C6_delimited_encoding
  refine ⟨e7 'a' (by decide), ?_⟩
  rw [e3 [[['x']]] [['y']], if_neg (by decide)]

/-! ### Lemmas about the paginator -/

theorem chunkList_nil {α : Type} (lpp : Nat) : chunkList lpp ([] : List α) = [] := by
  simp [chunkList]

theorem chunkList_cons {α : Type} (lpp : Nat) (x : α) (xs : List α) :
    chunkList lpp (x :: xs) =
      (x :: xs.take (lpp - 1)) :: chunkList lpp (xs.drop (lpp - 1)) := by
  simp [chunkList]

theorem chunkList_eq_nil_iff {α : Type} (lpp : Nat) (xs : List α) :
    chunkList lpp xs = [] ↔ xs = [] := by
  cases xs with
  | nil => simp [chunkList]
  | cons x xs => simp [chunkList]

theorem chunkList_flatten {α : Type} (lpp : Nat) (xs : List α) :
    (chunkList lpp xs).flatten = xs := by
  induction xs using chunkList.induct lpp with
  | case1 => simp [chunkList]
  | case2 x xs ih =>
    rw [chunkList_cons]
    simp [ih]

theorem chunkList_sum_lengths {α : Type} (lpp : Nat) (xs : List α) :
    ((chunkList lpp xs).map List.length).sum = xs.length := by
  rw [← List.length_flatten, chunkList_flatten]

theorem chunkList_mem_ne_nil {α : Type} (lpp : Nat) (xs : List α) :
    ∀ p ∈ chunkList lpp xs, p ≠ [] := by
  induction xs using chunkList.induct lpp with
  | case1 => simp [chunkList]
  | case2 x xs ih =>
    rw [chunkList_cons]
    intro p hp
    rw [List.mem_cons] at hp
    rcases hp with hp | hp
    · subst hp
      simp
    · exact ih p hp

theorem chunkList_mem_le {α : Type} {lpp : Nat} (hlpp : 1 ≤ lpp) (xs : List α) :
    ∀ p ∈ chunkList lpp xs, p.length ≤ lpp := by
  induction xs using chunkList.induct lpp with
  | case1 => simp [chunkList]
  | case2 x xs ih =>
    rw [chunkList_cons]
    intro p hp
    rw [List.mem_cons] at hp
    rcases hp with hp | hp
    · subst hp
      have htake := List.length_take (lpp - 1) xs
      simp only [List.length_cons, htake]
      omega
    · exact ih p hp

theorem chunkList_full {α : Type} {lpp : Nat} (hlpp : 1 ≤ lpp) (xs : List α) :
    ∀ i, i + 1 < (chunkList lpp xs).length →
      ((chunkList lpp xs).getD i []).length = lpp := by
  induction xs using chunkList.induct lpp with
  | case1 => simp [chunkList]
  | case2 x xs ih =>
    rw [chunkList_cons]
    intro i hi
    cases i with
    | zero =>
      have hrest : chunkList lpp (xs.drop (lpp - 1)) ≠ [] := by
        intro hnil
        rw [hnil] at hi
        simp at hi
      have hdrop : xs.drop (lpp - 1) ≠ [] := by
        intro hnil
        exact hrest ((chunkList_eq_nil_iff lpp _).mpr hnil)
      have hlen : lpp - 1 < xs.length := by
        by_contra hcon
        exact hdrop (List.drop_eq_nil_of_le (by omega))
      have htake := List.length_take (lpp - 1) xs
      simp only [List.getD_cons_zero, List.length_cons, htake]
      omega
    | succ j =>
      simp only [List.getD_cons_succ]
      exact ih j (by simpa using hi)

theorem paginate_ne_nil (lpp : Nat) (ls : List Str) : paginate lpp ls ≠ [] := by
  unfold paginate
  by_cases hc : chunkList lpp ls = [] <;> simp [hc]

/-- C3: the claim, as stated for every wrapped-line sequence, fails on the
empty sequence: the paginator substitutes one page holding one empty line,
so the page lengths sum to 1 while there are 0 wrapped lines. -/
theorem C3_counterexample :
    paginate 3 ([] : List Str) = [[[]]] ∧
    ((paginate 3 ([] : List Str)).map List.length).sum = 1 ∧
    ¬ ((paginate 3 ([] : List Str)).map List.length).sum = ([] : List Str).length := by
  refine ⟨?_, ?_, ?_⟩ <;> simp [paginate, chunkList]

/-- C3 (amended): for every wrapped-line sequence and every `linesPerPage ≥ 1`
the paginator returns a non-empty page list; the empty input yields exactly one
page containing exactly one empty-string line (that substituted line makes the
page-length sum 1 rather than 0); for every non-empty input the page lengths
sum to the number of wrapped lines, every page except possibly the last holds
exactly `linesPerPage` lines, and every page (in particular the last) holds
between 1 and `linesPerPage` lines. -/
theorem C3_pagination (lpp : Nat) (hlpp : 1 ≤ lpp) (ls : List Str) :
    paginate lpp ls ≠ [] ∧
    (ls = [] → paginate lpp ls = [[[]]]) ∧
    (ls ≠ [] →
      ((paginate lpp ls).map List.length).sum = ls.length ∧
      (∀ i, i + 1 < (paginate lpp ls).length → ((paginate lpp ls).getD i []).length = lpp) ∧
      (∀ p ∈ paginate lpp ls, 1 ≤ p.length ∧ p.length ≤ lpp)) := by
  refine ⟨paginate_ne_nil lpp ls, ?_, ?_⟩
  · intro h
    subst h
    simp [paginate, chunkList]
  · intro hne
    have hc : chunkList lpp ls ≠ [] := by
      simpa [chunkList_eq_nil_iff] using hne
    have hpag : paginate lpp ls = chunkList lpp ls := by
      simp [paginate, hc]
    rw [hpag]
    refine ⟨chunkList_sum_lengths lpp ls, chunkList_full hlpp ls, ?_⟩
    intro p hp
    have h1 := chunkList_mem_ne_nil lpp ls p hp
    have h2 := chunkList_mem_le hlpp ls p hp
    exact ⟨by
      cases p with
      | nil => exact absurd rfl h1
      | cons a l => simp, h2⟩

/-- Closed instance of `C3_pagination` at `linesPerPage = 3` and a concrete
four-line input: two pages, the first full with 3 lines, lengths summing to 4. -/
theorem C3_pagination_witness :
    ((paginate 3 [['a'], ['b'], ['c'], ['d']]).map List.length).sum = 4 ∧
    ((paginate 3 [['a'], ['b'], ['c'], ['d']]).getD 0 []).length = 3 := by
  obtain ⟨hne, hemp, hrest⟩ := C3_pagination 3 (by decide) [['a'], ['b'], ['c'], ['d']]
  obtain ⟨hsum, hfull, hmem⟩ := hrest (by simp)
  constructor
  · simpa using hsum
  · exact hfull 0 (by simp [paginate, chunkList])

/-! ### The binary document assembler (`buildPdf`, source lines 525-587)

The five geometry constants of the source (`lineHeight = 16`, `fontSize = 12`,
`margin = 72`, `pageHeight = 792`, `maxLineLength = 90`, source lines 527-531)
are lifted to parameters `lh fs mg ph ml`; `buildPdf` below instantiates them
with the source's values. -/

/-- `maxLinesPerPage = Math.floor((pageHeight - margin * 2) / lineHeight)`
(source line 532). -/
def maxLinesPerPageOf (ph mg lh : Nat) : Nat := (ph - mg * 2) / lh

/-- A global single-character replace, `s.replace(/c/g, rep)`. -/
def replaceChar (c : Char) (rep : Str) (s : Str) : Str :=
  s.flatMap (fun x => if x = c then rep else [x])

/-- `escapePdfText` (source lines 498-499): three chained global replaces,
backslash first, then the two parentheses. -/
def escapePdfText (text : Str) : Str :=
  replaceChar ')' ['\\', ')'] (replaceChar '(' ['\\', '('] (replaceChar '\\' ['\\', '\\'] text))

/-- One `BT ... Tj ET` show-text instruction (source lines 554-557); the
vertical position is `pageHeight - margin - lineIndex * lineHeight`, computed
as an integer as JavaScript does. -/
def contentLineStr (fs mg ph lh : Nat) (lineIndex : Nat) (line : Str) : Str :=
  ("BT /F1 ").toList ++ natToStr fs ++ (" Tf ").toList ++ natToStr mg ++ [' '] ++
    intToStr ((ph : Int) - (mg : Int) - (lineIndex : Int) * (lh : Int)) ++
    (" Td (").toList ++ escapePdfText line ++ (") Tj ET").toList

/-- A page's content stream: the per-line instructions joined with newlines
(source line 559). -/
def pageContent (fs mg ph lh : Nat) (pageLines : List Str) : Str :=
  List.intercalate ['\n'] (pageLines.enum.map (fun p => contentLineStr fs mg ph lh p.1 p.2))

/-- `pageObjectsStart` (source line 541). -/
def pageObjectsStart : Nat := 3

/-- `pageObjectNumber = pageObjectsStart + index * 2` (source line 552). -/
def pageObjectNumber (index : Nat) : Nat := pageObjectsStart + index * 2

/-- `contentObjectNumber = pageObjectNumber + 1` (source line 553). -/
def contentObjectNumber (index : Nat) : Nat := pageObjectNumber index + 1

/-- `fontObjectNumber = pageObjectsStart + pages.length * 2` (source line 542). -/
def fontObjectNumber (pageCount : Nat) : Nat := pageObjectsStart + pageCount * 2

/-- Every object template of the source has the shape
`${id} 0 obj\n<body>endobj\n`; this factors out that shape. -/
def mkObj (id : Nat) (body : Str) : Str :=
  natToStr id ++ (" 0 obj\n").toList ++ body ++ ("endobj\n").toList

/-- Body of the catalog object (source line 547). -/
def catalogBody : Str := ("<< /Type /Catalog /Pages 2 0 R >>\n").toList

/-- The Kids reference list (source lines 543-545): one `${id} 0 R` per page
in page order, joined with single spaces. -/
def pageKids (pageCount : Nat) : Str :=
  List.intercalate [' ']
    ((List.range pageCount).map (fun i => natToStr (pageObjectNumber i) ++ (" 0 R").toList))

/-- Body of the page-tree object (source lines 548-550). -/
def pagesBody (pageCount : Nat) : Str :=
  ("<< /Type /Pages /Kids [").toList ++ pageKids pageCount ++ ("] /Count ").toList ++
    natToStr pageCount ++ (" >>\n").toList

/-- Body of one page object (source lines 560-562). -/
def pageBody (fontObj contentObj : Nat) : Str :=
  ("<< /Type /Page /Parent 2 0 R /MediaBox [0 0 612 792] /Contents ").toList ++
    natToStr contentObj ++ (" 0 R /Resources << /Font << /F1 ").toList ++
    natToStr fontObj ++ (" 0 R >> >> >>\n").toList

/-- Body of one content-stream object (source lines 563-567); `/Length` is the
UTF-8 byte length of the stream content. -/
def contentBody (content : Str) : Str :=
  ("<< /Length ").toList ++ natToStr (byteLen content) ++ (" >>\nstream\n").toList ++
    content ++ ("\nendstream\n").toList

/-- Body of the shared font object (source lines 569-571). -/
def fontBody : Str := ("<< /Type /Font /Subtype /Type1 /BaseFont /Helvetica >>\n").toList

/-- The object list of `buildPdf` (source lines 546-571) as
(identity, body) pairs in emission order: catalog (1), page tree (2), then for
each page the page object followed by its content stream, then the font. -/
def pdfObjectList (fs mg ph lh : Nat) (pages : List (List Str)) : List (Nat × Str) :=
  (1, catalogBody) :: (2, pagesBody pages.length) ::
    (pages.enum.flatMap (fun p =>
      [(pageObjectNumber p.1,
        pageBody (fontObjectNumber pages.length) (contentObjectNumber p.1)),
       (contentObjectNumber p.1, contentBody (pageContent fs mg ph lh p.2))]) ++
      [(fontObjectNumber pages.length, fontBody)])

/-- The serialized objects, in identity order. -/
def pdfObjects (fs mg ph lh : Nat) (pages : List (List Str)) : List Str :=
  (pdfObjectList fs mg ph lh pages).map (fun p => mkObj p.1 p.2)

/-- The identity of each object, in emission order. -/
def pdfObjectIds (fs mg ph lh : Nat) (pages : List (List Str)) : List Nat :=
  (pdfObjectList fs mg ph lh pages).map Prod.fst

/-- The fixed header (source line 572). -/
def pdfHeader : Str := ("%PDF-1.4\n").toList

/-- The offset bookkeeping loop (source lines 573-578): `offsets` starts as
`[0]`, `offset` starts at the header's byte length, and before each object is
appended its current offset is recorded.  Returns the offset list and the
final cumulative length (`xrefStart`, source line 579). -/
def pdfOffsetsAux (objs : List Str) : List Nat × Nat :=
  objs.foldl (fun acc obj => (acc.1 ++ [acc.2], acc.2 + byteLen obj)) ([0], byteLen pdfHeader)

/-- The recorded cross-reference offsets (sentinel 0 first). -/
def pdfOffsets (objs : List Str) : List Nat := (pdfOffsetsAux objs).1

/-- `xrefStart` (source line 579). -/
def pdfXrefStart (objs : List Str) : Nat := (pdfOffsetsAux objs).2

/-- `value.toString().padStart(10, "0")` (source line 582). -/
def pad10 (n : Nat) : Str := List.replicate (10 - (natToStr n).length) '0' ++ natToStr n

/-- The xref entry lines (source lines 580-583): every offset after the
sentinel, padded to ten digits, followed by `" 00000 n \n"`, joined with `""`. -/
def pdfXrefEntries (objs : List Str) : Str :=
  (((pdfOffsets objs).drop 1).map (fun v => pad10 v ++ (" 00000 n \n").toList)).flatten

/-- The cross-reference section (source line 584): subsection header with
entry count `objects.length + 1`, the sentinel free entry, then the entries. -/
def pdfXref (objs : List Str) : Str :=
  ("xref\n0 ").toList ++ natToStr (objs.length + 1) ++ ("\n0000000000 65535 f \n").toList ++
    pdfXrefEntries objs

/-- The trailer (source line 585): `/Size` is `objects.length + 1`, `/Root`
names object 1, `startxref` points at `xrefStart`. -/
def pdfTrailer (objs : List Str) : Str :=
  ("trailer\n<< /Size ").toList ++ natToStr (objs.length + 1) ++
    (" /Root 1 0 R >>\nstartxref\n").toList ++ natToStr (pdfXrefStart objs) ++
    ("\n%%EOF").toList

/-- The wrapped and paginated pages of `buildPdf` (source lines 532-540). -/
def pdfPages (ml ph mg lh : Nat) (lines : List Str) : List (List Str) :=
  paginate (maxLinesPerPageOf ph mg lh) (lines.flatMap (fun l => wrapText l ml))

/-- The whole document text produced by `buildPdf` for a given geometry
(source line 586 concatenates header, objects, xref and trailer into the
emitted blob); the emitted bytes are the UTF-8 encoding of this string. -/
def pdfDoc (lh fs mg ph ml : Nat) (lines : List Str) : Str :=
  pdfHeader ++ (pdfObjects fs mg ph lh (pdfPages ml ph mg lh lines)).flatten ++
    pdfXref (pdfObjects fs mg ph lh (pdfPages ml ph mg lh lines)) ++
    pdfTrailer (pdfObjects fs mg ph lh (pdfPages ml ph mg lh lines))

/-- `buildPdf` (source lines 525-587) at the source's fixed geometry. -/
def buildPdf (lines : List Str) : Str := pdfDoc 16 12 72 792 90 lines

/-! ### Lemmas about byte lengths and the offset fold -/

theorem byteLen_append (a b : Str) : byteLen (a ++ b) = byteLen a + byteLen b := by
  simp [byteLen]

theorem charBytes_pos (c : Char) : 1 ≤ charBytes c := by
  unfold charBytes
  by_cases h1 : c.val < 0x80
  · simp [h1]
  · by_cases h2 : c.val < 0x800
    · simp [h1, h2]
    · by_cases h3 : c.val < 0x10000 <;> simp [h1, h2, h3]

theorem byteLen_pos (s : Str) (h : ¬ s = []) : 1 ≤ byteLen s := by
  cases s with
  | nil => exact absurd rfl h
  | cons c cs =>
    have := charBytes_pos c
    simp only [byteLen, List.map_cons, List.sum_cons]
    omega

theorem mkObj_ne_nil (id : Nat) (body : Str) : ¬ mkObj id body = [] := by
  unfold mkObj
  intro h
  have h2 : (("endobj\n").toList : Str) ≠ [] := by decide
  exact List.append_ne_nil_of_right_ne_nil _ h2 h

theorem offsets_shift (o : Str) (os : List Str) (off0 : Nat) :
    [off0] ++ (List.range os.length).map
        (fun k => off0 + byteLen o + ((os.take k).map byteLen).sum) =
      (List.range (os.length + 1)).map
        (fun k => off0 + (((o :: os).take k).map byteLen).sum) := by
  have hmap : (List.range os.length).map
      (fun k => off0 + byteLen o + ((os.take k).map byteLen).sum) =
      (List.range os.length).map
        ((fun k => off0 + (((o :: os).take k).map byteLen).sum) ∘ Nat.succ) := by
    apply List.map_congr_left
    intro k hk
    show off0 + byteLen o + ((os.take k).map byteLen).sum =
      off0 + (((o :: os).take (k + 1)).map byteLen).sum
    rw [List.take_succ_cons, List.map_cons, List.sum_cons]
    omega
  rw [List.singleton_append, hmap, List.range_succ_eq_map, List.map_cons, List.map_map]
  congr 1

theorem pdfFold_spec (objs : List Str) :
    ∀ (offs0 : List Nat) (off0 : Nat),
      (objs.foldl (fun acc obj => (acc.1 ++ [acc.2], acc.2 + byteLen obj)) (offs0, off0)) =
        (offs0 ++ (List.range objs.length).map
            (fun k => off0 + ((objs.take k).map byteLen).sum),
          off0 + (objs.map byteLen).sum) := by
  induction objs with
  | nil =>
    intro offs0 off0
    simp
  | cons o os ih =>
    intro offs0 off0
    rw [List.foldl_cons]
    have hstep : List.foldl (fun acc obj => (acc.1 ++ [acc.2], acc.2 + byteLen obj))
        ((offs0, off0).1 ++ [(offs0, off0).2], (offs0, off0).2 + byteLen o) os =
        List.foldl (fun acc obj => (acc.1 ++ [acc.2], acc.2 + byteLen obj))
        (offs0 ++ [off0], off0 + byteLen o) os := rfl
    rw [hstep, ih (offs0 ++ [off0]) (off0 + byteLen o)]
    refine Prod.ext ?_ ?_
    · show (offs0 ++ [off0]) ++ (List.range os.length).map
          (fun k => off0 + byteLen o + ((os.take k).map byteLen).sum) =
        offs0 ++ (List.range (o :: os).length).map
          (fun k => off0 + (((o :: os).take k).map byteLen).sum)
      rw [List.append_assoc, offsets_shift o os off0, List.length_cons]
    · show off0 + byteLen o + (os.map byteLen).sum = off0 + ((o :: os).map byteLen).sum
      rw [List.map_cons, List.sum_cons]
      omega

theorem pdfOffsets_eq (objs : List Str) :
    pdfOffsets objs = 0 :: (List.range objs.length).map
      (fun k => byteLen pdfHeader + ((objs.take k).map byteLen).sum) := by
  unfold pdfOffsets pdfOffsetsAux
  rw [pdfFold_spec]
  rfl

theorem pdfXrefStart_eq (objs : List Str) :
    pdfXrefStart objs = byteLen pdfHeader + (objs.map byteLen).sum := by
  unfold pdfXrefStart pdfOffsetsAux
  rw [pdfFold_spec]

theorem pdfOffsets_length (objs : List Str) :
    (pdfOffsets objs).length = objs.length + 1 := by
  rw [pdfOffsets_eq]
  simp

theorem byteLen_flatten (L : List Str) : byteLen L.flatten = (L.map byteLen).sum := by
  induction L with
  | nil => simp [byteLen]
  | cons x t ih => simp [byteLen_append, ih]

/-- The pages of `buildPdf` at the source's fixed geometry (the local
`pages` variable, source lines 534-540). -/
def pdfPagesOf (lines : List Str) : List (List Str) := pdfPages 90 792 72 16 lines

/-- The serialized objects of `buildPdf` at the source's fixed geometry (the
local `objects` variable, source lines 546-571). -/
def pdfObjsOf (lines : List Str) : List Str := pdfObjects 12 72 792 16 (pdfPagesOf lines)

theorem getD_map_range {β : Type} (n k : Nat) (f : Nat → β) (d : β) (h : k < n) :
    ((List.range n).map f).getD k d = f k := by
  rw [List.getD_eq_getElem?_getD, List.getElem?_map, List.getElem?_range h]
  rfl

theorem length_flatMap_pairs {α β : Type} (l : List α) (f : α → List β)
    (h : ∀ x ∈ l, (f x).length = 2) : (l.flatMap f).length = 2 * l.length := by
  induction l with
  | nil => simp
  | cons x t ih =>
    rw [List.flatMap_cons, List.length_append, h x (List.mem_cons_self x t),
      ih (fun y hy => h y (List.mem_cons_of_mem x hy)), List.length_cons]
    ring

theorem pdfObjectList_length (fs mg ph lh : Nat) (pages : List (List Str)) :
    (pdfObjectList fs mg ph lh pages).length = 2 * pages.length + 3 := by
  have h := length_flatMap_pairs pages.enum
    (fun p => [(pageObjectNumber p.1,
        pageBody (fontObjectNumber pages.length) (contentObjectNumber p.1)),
       (contentObjectNumber p.1, contentBody (pageContent fs mg ph lh p.2))])
    (fun x hx => rfl)
  unfold pdfObjectList
  rw [List.length_cons, List.length_cons, List.length_append, h, List.enum_length,
    List.length_singleton]

theorem pdfObjects_length (fs mg ph lh : Nat) (pages : List (List Str)) :
    (pdfObjects fs mg ph lh pages).length = 2 * pages.length + 3 := by
  unfold pdfObjects
  rw [List.length_map, pdfObjectList_length]

theorem range_flatMap_pairIds (n : Nat) :
    (List.range n).flatMap (fun i => [pageObjectNumber i, contentObjectNumber i]) =
      List.range' 3 (2 * n) := by
  induction n with
  | zero => simp
  | succ m ih =>
    rw [List.range_succ, List.flatMap_append, ih]
    have h1 : 2 * (m + 1) = (2 * m + 1) + 1 := by omega
    rw [h1, List.range'_concat, List.range'_concat]
    simp only [List.flatMap_cons, List.flatMap_nil, List.append_assoc, List.append_nil,
      pageObjectNumber, contentObjectNumber, pageObjectsStart, Nat.one_mul]
    congr 2
    · omega
    · congr 1
      omega

theorem pdfObjectIds_eq (fs mg ph lh : Nat) (pages : List (List Str)) :
    pdfObjectIds fs mg ph lh pages = List.range' 1 (2 * pages.length + 3) := by
  unfold pdfObjectIds pdfObjectList
  rw [List.map_cons, List.map_cons, List.map_append]
  have hinner : (pages.enum.flatMap (fun p =>
      [(pageObjectNumber p.1,
        pageBody (fontObjectNumber pages.length) (contentObjectNumber p.1)),
       (contentObjectNumber p.1, contentBody (pageContent fs mg ph lh p.2))])).map Prod.fst =
      (List.range pages.length).flatMap
        (fun i => [pageObjectNumber i, contentObjectNumber i]) := by
    rw [List.map_flatMap, ← List.enum_map_fst pages, List.flatMap_map]
    simp
  rw [hinner, range_flatMap_pairIds]
  have h2 : 2 * pages.length + 3 = ((2 * pages.length + 1) + 1) + 1 := by omega
  rw [h2, List.range'_concat]
  have h3 : List.range' 1 ((2 * pages.length + 1) + 1) =
      1 :: 2 :: List.range' 3 (2 * pages.length) := rfl
  rw [h3]
  simp [fontObjectNumber, pageObjectsStart]
  omega

theorem mem_pdfObjectIds (fs mg ph lh : Nat) (pages : List (List Str)) (id : Nat) :
    id ∈ pdfObjectIds fs mg ph lh pages ↔ 1 ≤ id ∧ id < 2 * pages.length + 4 := by
  rw [pdfObjectIds_eq, List.mem_range'_1]
  omega

/-- C1: for every input line sequence: the recorded cross-reference offsets
number object count + 1 with the sentinel 0 first; the offset recorded for the
object of identity `k+1` equals the UTF-8 byte length of the header plus all
previously serialized objects; the offsets strictly increase in identity order
after the sentinel; and the `startxref` value equals the byte offset at which
the cross-reference section begins in the emitted buffer (which is laid out as
header, then objects, then xref section, then trailer). -/
theorem C1_xref_offsets (lines : List Str) :
    (pdfOffsets (pdfObjsOf lines)).length = (pdfObjsOf lines).length + 1 ∧
    (pdfOffsets (pdfObjsOf lines)).getD 0 1 = 0 ∧
    (∀ k, k < (pdfObjsOf lines).length →
      (pdfOffsets (pdfObjsOf lines)).getD (k + 1) 0 =
        byteLen pdfHeader + (((pdfObjsOf lines).take k).map byteLen).sum) ∧
    (∀ k, k + 1 < (pdfObjsOf lines).length →
      (pdfOffsets (pdfObjsOf lines)).getD (k + 1) 0 <
        (pdfOffsets (pdfObjsOf lines)).getD (k + 2) 0) ∧
    pdfXrefStart (pdfObjsOf lines) = byteLen (pdfHeader ++ (pdfObjsOf lines).flatten) ∧
    buildPdf lines = (pdfHeader ++ (pdfObjsOf lines).flatten) ++
      (pdfXref (pdfObjsOf lines) ++ pdfTrailer (pdfObjsOf lines)) := by
  have hpos : ∀ o ∈ pdfObjsOf lines, 1 ≤ byteLen o := by
    intro o ho
    unfold pdfObjsOf pdfObjects at ho
    rw [List.mem_map] at ho
    obtain ⟨p, hp, hpo⟩ := ho
    exact byteLen_pos o (fun hnil => mkObj_ne_nil p.1 p.2 (hpo ▸ hnil))
  refine ⟨pdfOffsets_length _, ?_, ?_, ?_, ?_, ?_⟩
  · rw [pdfOffsets_eq]
    rfl
  · intro k hk
    rw [pdfOffsets_eq, List.getD_cons_succ, getD_map_range _ k _ 0 hk]
  · intro k hk
    rw [pdfOffsets_eq, List.getD_cons_succ, List.getD_cons_succ,
      getD_map_range _ k _ 0 (by omega), getD_map_range _ (k + 1) _ 0 (by omega)]
    have hk2 : k < ((pdfObjsOf lines).map byteLen).length := by
      rw [List.length_map]; omega
    have hsum := List.sum_take_succ ((pdfObjsOf lines).map byteLen) k hk2
    rw [List.map_take, List.map_take, hsum]
    have hmem : ((pdfObjsOf lines).map byteLen)[k] ∈ (pdfObjsOf lines).map byteLen :=
      List.getElem_mem hk2
    rw [List.mem_map] at hmem
    obtain ⟨o, ho, hbo⟩ := hmem
    have h1 : 1 ≤ ((pdfObjsOf lines).map byteLen)[k] := hbo ▸ hpos o ho
    omega
  · rw [pdfXrefStart_eq, byteLen_append, byteLen_flatten]
  · rw [buildPdf, pdfDoc]
    show pdfHeader ++ (pdfObjsOf lines).flatten ++ pdfXref (pdfObjsOf lines) ++
      pdfTrailer (pdfObjsOf lines) = _
    simp [List.append_assoc]

/-- Closed instance of `C1_xref_offsets` on a one-line document: six offsets,
sentinel first, the first object's offset is the header length 9, and offsets
increase between the first two objects. -/
theorem C1_xref_offsets_witness :
    (pdfOffsets (pdfObjsOf [['a']])).getD 0 1 = 0 ∧
    (pdfOffsets (pdfObjsOf [['a']])).getD 1 0 = byteLen pdfHeader ∧
    (pdfOffsets (pdfObjsOf [['a']])).getD 1 0 < (pdfOffsets (pdfObjsOf [['a']])).getD 2 0 := by
  have hlen : (pdfObjsOf [['a']]).length = 5 := by
    unfold pdfObjsOf
    rw [pdfObjects_length]
    have hp : pdfPagesOf [['a']] = [[['a']]] := by
      unfold pdfPagesOf pdfPages
      have hwrap : ([['a']] : List Str).flatMap (fun l => wrapText l 90) = [['a']] := by decide
      rw [hwrap]
      show paginate 40 [['a']] = [[['a']]]
      simp [paginate, chunkList_cons, chunkList_nil]
    rw [hp]
    rfl
  obtain ⟨h1, h2, h3, h4, h5, h6⟩ := C1_xref_offsets [['a']]
  refine ⟨h2, ?_, h4 0 (by omega)⟩
  have := h3 0 (by omega)
  simpa using this

/-- C2: object identities are assigned densely in the fixed order catalog = 1,
page tree = 2, page `i` at `3 + 2i` with its content stream at `4 + 2i`, and
the shared font at `3 + 2·pageCount` (the identity list in emission order is
exactly `1, …, 2·pageCount + 3`); the page count is at least 1; the Kids list
renders exactly the page object identities in page order, each exactly once;
and every reference made by the document (trailer Root → 1, catalog → 2,
page → parent 2, page `i` → content `4 + 2i`, page → font, Kids entries) names
an identity that is in the object list and has a recorded offset (its index is
within the offset table). -/
theorem C2_object_identities (lines : List Str) :
    1 ≤ (pdfPagesOf lines).length ∧
    (∀ i, pageObjectNumber i = 3 + 2 * i) ∧
    (∀ i, contentObjectNumber i = 4 + 2 * i) ∧
    fontObjectNumber (pdfPagesOf lines).length = 3 + 2 * (pdfPagesOf lines).length ∧
    pdfObjectIds 12 72 792 16 (pdfPagesOf lines) =
      List.range' 1 (2 * (pdfPagesOf lines).length + 3) ∧
    (pdfObjsOf lines).length = 2 * (pdfPagesOf lines).length + 3 ∧
    pageKids (pdfPagesOf lines).length = List.intercalate [' ']
      (((List.range (pdfPagesOf lines).length).map pageObjectNumber).map
        (fun m => natToStr m ++ (" 0 R").toList)) ∧
    ((List.range (pdfPagesOf lines).length).map pageObjectNumber).Nodup ∧
    (pdfOffsets (pdfObjsOf lines)).length = (pdfObjsOf lines).length + 1 ∧
    (∀ id ∈ pdfObjectIds 12 72 792 16 (pdfPagesOf lines),
      1 ≤ id ∧ id < (pdfOffsets (pdfObjsOf lines)).length) ∧
    (∀ i, i < (pdfPagesOf lines).length →
      pageObjectNumber i ∈ pdfObjectIds 12 72 792 16 (pdfPagesOf lines) ∧
      contentObjectNumber i ∈ pdfObjectIds 12 72 792 16 (pdfPagesOf lines)) ∧
    1 ∈ pdfObjectIds 12 72 792 16 (pdfPagesOf lines) ∧
    2 ∈ pdfObjectIds 12 72 792 16 (pdfPagesOf lines) ∧
    fontObjectNumber (pdfPagesOf lines).length ∈ pdfObjectIds 12 72 792 16 (pdfPagesOf lines) := by
  have hpage : 1 ≤ (pdfPagesOf lines).length := by
    have h := paginate_ne_nil (maxLinesPerPageOf 792 72 16)
      (lines.flatMap (fun l => wrapText l 90))
    unfold pdfPagesOf pdfPages
    cases hp : paginate (maxLinesPerPageOf 792 72 16)
        (lines.flatMap (fun l => wrapText l 90)) with
    | nil => exact absurd hp h
    | cons a t => simp
  have hlen : (pdfObjsOf lines).length = 2 * (pdfPagesOf lines).length + 3 := by
    unfold pdfObjsOf
    rw [pdfObjects_length]
  refine ⟨hpage,
    fun i => by unfold pageObjectNumber pageObjectsStart; omega,
    fun i => by unfold contentObjectNumber pageObjectNumber pageObjectsStart; omega,
    by unfold fontObjectNumber pageObjectsStart; omega,
    pdfObjectIds_eq 12 72 792 16 (pdfPagesOf lines),
    hlen, ?_, ?_, pdfOffsets_length _, ?_, ?_, ?_, ?_, ?_⟩
  · unfold pageKids
    rw [List.map_map]
    rfl
  · refine List.Nodup.map ?_ (List.nodup_range _)
    intro a b hab
    unfold pageObjectNumber pageObjectsStart at hab
    omega
  · intro id hid
    rw [mem_pdfObjectIds] at hid
    rw [pdfOffsets_length, hlen]
    omega
  · intro i hi
    constructor
    · rw [mem_pdfObjectIds]
      unfold pageObjectNumber pageObjectsStart
      omega
    · rw [mem_pdfObjectIds]
      unfold contentObjectNumber pageObjectNumber pageObjectsStart
      omega
  · rw [mem_pdfObjectIds]
    omega
  · rw [mem_pdfObjectIds]
    omega
  · rw [mem_pdfObjectIds]
    unfold fontObjectNumber pageObjectsStart
    omega

/-- Closed instance of `C2_object_identities` on the empty input: one page,
five objects with identities 1..5, page object 3 and content object 4 and
font object 5 all present, and every identity within the offset table. -/
theorem C2_object_identities_witness :
    pageObjectNumber 0 = 3 ∧ contentObjectNumber 0 = 4 ∧
    pageObjectNumber 0 ∈ pdfObjectIds 12 72 792 16 (pdfPagesOf []) ∧
    contentObjectNumber 0 ∈ pdfObjectIds 12 72 792 16 (pdfPagesOf []) ∧
    1 ∈ pdfObjectIds 12 72 792 16 (pdfPagesOf []) ∧
    (∀ id ∈ pdfObjectIds 12 72 792 16 (pdfPagesOf []),
      1 ≤ id ∧ id < (pdfOffsets (pdfObjsOf [])).length) := by
  have hp : (pdfPagesOf ([] : List Str)).length = 1 := by
    unfold pdfPagesOf pdfPages
    simp [paginate, chunkList_nil]
  obtain ⟨g1, g2, g3, g4, g5, g6, g7, g8, g9, g10, g11, g12, g13, g14⟩ :=
    C2_object_identities []
  obtain ⟨m1, m2⟩ := g11 0 (by omega)
  exact ⟨by simpa using g2 0, by simpa using g3 0, m1, m2, g12, g10⟩

/-- C7: the claim fails — the assembler performs no geometry validation and
has no error path at all.  With the geometry constants replaced by a
degenerate geometry (pageHeight 144, margin 72, line pitch 16, so computed
linesPerPage = 0 < 1) and empty input it does not raise: it paginates
(substituting the single empty page) and emits the complete document
(header, objects, xref, trailer). -/
theorem C7_counterexample :
    maxLinesPerPageOf 144 72 16 = 0 ∧
    (pdfPages 90 144 72 16 []).length = 1 ∧
    pdfDoc 16 12 72 144 90 [] ≠ [] ∧
    pdfDoc 16 12 72 144 90 [] =
      pdfHeader ++ (pdfObjects 12 72 144 16 (pdfPages 90 144 72 16 [])).flatten ++
        pdfXref (pdfObjects 12 72 144 16 (pdfPages 90 144 72 16 [])) ++
        pdfTrailer (pdfObjects 12 72 144 16 (pdfPages 90 144 72 16 [])) := by
  refine ⟨by decide, ?_, ?_, rfl⟩
  · unfold pdfPages
    simp [paginate, chunkList_nil]
  · intro h
    rw [pdfDoc] at h
    simp only [List.append_eq_nil] at h
    exact absurd h.1.1.1 (by decide)

/-- C7 (amended): the source fixes the geometry as local constants
(line pitch 16, font size 12, margin 72, page height 792, wrap width 90), so
the computed linesPerPage is the constant 40 ≥ 1 and no degenerate
configuration can occur in the program; the assembler contains no validation
or error path and always emits a complete non-empty document with at least
one page (on a degenerate geometry it would emit a document rather than
raise, as the counterexample shows). -/
theorem C7_no_config_error (lines : List Str) :
    maxLinesPerPageOf 792 72 16 = 40 ∧
    1 ≤ maxLinesPerPageOf 792 72 16 ∧
    buildPdf lines = pdfDoc 16 12 72 792 90 lines ∧
    buildPdf lines ≠ [] ∧
    1 ≤ (pdfPagesOf lines).length := by
  refine ⟨by decide, by decide, rfl, ?_, ?_⟩
  · intro h
    rw [buildPdf, pdfDoc] at h
    simp only [List.append_eq_nil] at h
    exact absurd h.1.1.1 (by decide)
  · have h := paginate_ne_nil (maxLinesPerPageOf 792 72 16)
      (lines.flatMap (fun l => wrapText l 90))
    unfold pdfPagesOf pdfPages
    cases hp : paginate (maxLinesPerPageOf 792 72 16)
        (lines.flatMap (fun l => wrapText l 90)) with
    | nil => exact absurd hp h
    | cons a t => simp

/-- Closed instance of `C7_no_config_error`: the source geometry computes 40
lines per page and the empty-input document is non-empty. -/
theorem C7_no_config_error_witness :
    maxLinesPerPageOf 792 72 16 = 40 ∧ buildPdf [] ≠ [] := by
  obtain ⟨a, b, c, d, e⟩ := C7_no_config_error []
  exact ⟨a, d⟩

/-! ### The table flattener (source lines 355-481)

The report state read by `buildReportLines` and `buildReportCsvRows` —
`reportSummary`, `reportHighlights`, `reportMetrics`, the `analysis*` values
derived from the analysis layer (source lines 813-819, absent layer fields
defaulting to empty), `activeSheet`, `chartData` and `aiActions` — is
collected in a `Report` value.  Chart values are modelled as integers. -/

structure Metric where
  label : Str
  value : Str
deriving DecidableEq

structure AttributionItem where
  source : Str
  notes : Str
deriving DecidableEq

structure Sheet where
  name : Str
  lastUpdated : Str
  rows : List (List Str)
deriving DecidableEq

structure ChartPayload where
  title : Str
  labels : List Str
  values : List Int
deriving DecidableEq

structure Report where
  reportSummary : Str
  reportHighlights : List Str
  reportMetrics : List Metric
  analysisOverview : Str
  analysisKeyPoints : List Str
  analysisStructuredPlan : List Str
  analysisOpportunities : List Str
  analysisRisks : List Str
  analysisDataAttribution : List AttributionItem
  analysisConfidence : Str
  activeSheet : Sheet
  chartData : ChartPayload
  aiActions : List Str
deriving DecidableEq

/-- `defaultReportSummary` (source lines 347-348). -/
def defaultReportSummary : Str :=
  ("Start from a spreadsheet and we\x27ll generate a report, charts, and export-ready data.").toList

/-- `defaultAnalysisOverview` (source lines 349-350). -/
def defaultAnalysisOverview : Str :=
  ("Generate a report to see the strategic synthesis and data attribution layer.").toList

/-- `reportSummaryText = reportSummary || defaultReportSummary` (source 352). -/
def reportSummaryText (r : Report) : Str :=
  if r.reportSummary = [] then defaultReportSummary else r.reportSummary

/-- `analysisOverviewText = analysisLayer?.overview || defaultAnalysisOverview`
(source 353). -/
def analysisOverviewText (r : Report) : Str :=
  if r.analysisOverview = [] then defaultAnalysisOverview else r.analysisOverview

/-- `• ${item}` bullet lines (source 362 and friends). -/
def bullet (s : Str) : Str := ("• ").toList ++ s

/-- The chart lines of `buildReportLines` (source 414-416):
`${label}: ${chartData.values[index] ?? 0}` for each label, a missing value
rendering as 0. -/
def chartLineEntries (c : ChartPayload) : List Str :=
  c.labels.enum.map (fun p => p.2 ++ (": ").toList ++ intToStr (c.values.getD p.1 0))

/-- The chart rows of `buildReportCsvRows` (source 472-474):
`[label, `${chartData.values[index] ?? 0}`]` for each label. -/
def chartCsvEntries (c : ChartPayload) : List (List Str) :=
  c.labels.enum.map (fun p => [p.2, intToStr (c.values.getD p.1 0)])

/-- `buildReportLines` (source lines 355-425), as the sequence of conditional
pushes on the `lines` array, translated push-for-push. -/
def buildReportLines (r : Report) : List Str :=
  let lines : List Str := []
  let lines := lines ++ [("Report summary").toList, reportSummaryText r]
  let lines := lines ++ (if r.reportHighlights = [] then []
    else ("Highlights").toList :: r.reportHighlights.map bullet)
  let lines := lines ++ (if r.reportMetrics = [] then []
    else ("Metrics").toList ::
      r.reportMetrics.map (fun m => m.label ++ (": ").toList ++ m.value))
  let lines := lines ++ [[]]
  let lines := lines ++ [("Strategic analysis layer").toList, analysisOverviewText r]
  let lines := lines ++ (if r.analysisKeyPoints = [] then []
    else ("Key points").toList :: r.analysisKeyPoints.map bullet)
  let lines := lines ++ (if r.analysisStructuredPlan = [] then []
    else ("Structured plan").toList :: r.analysisStructuredPlan.map bullet)
  let lines := lines ++ (if r.analysisOpportunities = [] then []
    else ("Opportunities").toList :: r.analysisOpportunities.map bullet)
  let lines := lines ++ (if r.analysisRisks = [] then []
    else ("Risks").toList :: r.analysisRisks.map bullet)
  let lines := lines ++ (if r.analysisDataAttribution = [] then []
    else ("Data attribution").toList ::
      r.analysisDataAttribution.map (fun a => bullet (a.source ++ (": ").toList ++ a.notes)))
  let lines := lines ++ (if r.analysisConfidence = [] then []
    else [("Confidence: ").toList ++ r.analysisConfidence])
  let lines := lines ++ [[]]
  let lines := lines ++
    [r.activeSheet.name ++ (" (Last updated ").toList ++ r.activeSheet.lastUpdated ++ (")").toList]
  let lines := lines ++ r.activeSheet.rows.map (fun row => List.intercalate ((" | ").toList) row)
  let lines := lines ++ [[]]
  let lines := lines ++ [r.chartData.title]
  let lines := lines ++ chartLineEntries r.chartData
  let lines := lines ++ (if r.aiActions = [] then []
    else [] :: ("AI actions").toList :: r.aiActions.map bullet)
  lines

/-- `buildReportCsvRows` (source lines 427-481), as the sequence of
conditional pushes on the `rows` array, translated push-for-push (the source
pushes a copy `[...row]` of each sheet row, which is value-identical to the
row itself). -/
def buildReportCsvRows (r : Report) : List (List Str) :=
  let rows : List (List Str) := []
  let rows := rows ++ [[("Report summary").toList, reportSummaryText r]]
  let rows := rows ++ (if r.reportHighlights = [] then []
    else [("Highlights").toList] :: r.reportHighlights.map (fun i => [i]))
  let rows := rows ++ (if r.reportMetrics = [] then []
    else [("Metrics").toList] :: r.reportMetrics.map (fun m => [m.label, m.value]))
  let rows := rows ++ [[]]
  let rows := rows ++ [[("Strategic analysis layer").toList, analysisOverviewText r]]
  let rows := rows ++ (if r.analysisKeyPoints = [] then []
    else [("Key points").toList] :: r.analysisKeyPoints.map (fun i => [i]))
  let rows := rows ++ (if r.analysisStructuredPlan = [] then []
    else [("Structured plan").toList] :: r.analysisStructuredPlan.map (fun i => [i]))
  let rows := rows ++ (if r.analysisOpportunities = [] then []
    else [("Opportunities").toList] :: r.analysisOpportunities.map (fun i => [i]))
  let rows := rows ++ (if r.analysisRisks = [] then []
    else [("Risks").toList] :: r.analysisRisks.map (fun i => [i]))
  let rows := rows ++ (if r.analysisDataAttribution = [] then []
    else [("Data attribution").toList] ::
      r.analysisDataAttribution.map (fun a => [a.source ++ (": ").toList ++ a.notes]))
  let rows := rows ++ (if r.analysisConfidence = [] then []
    else [[("Confidence").toList, r.analysisConfidence]])
  let rows := rows ++ [[]]
  let rows := rows ++ [[r.activeSheet.name, ("Last updated ").toList ++ r.activeSheet.lastUpdated]]
  let rows := rows ++ [[]]
  let rows := rows ++ r.activeSheet.rows
  let rows := rows ++ [[]]
  let rows := rows ++ [[("Chart").toList, r.chartData.title]]
  let rows := rows ++ [[("Label").toList, ("Value").toList]]
  let rows := rows ++ chartCsvEntries r.chartData
  let rows := rows ++ (if r.aiActions = [] then []
    else [] :: [("AI actions").toList] :: r.aiActions.map (fun a => [a]))
  rows

/-- `handleDownloadCsv` (source lines 493-496): the CSV text handed to the
download collaborator. -/
def exportCsvText (r : Report) : Str := toCsv (buildReportCsvRows r)

/-- `handleDownloadPdf` (source lines 589-592): the document text handed to
the download collaborator (its UTF-8 encoding is the emitted byte buffer). -/
def exportPdfText (r : Report) : Str := buildPdf (buildReportLines r)

/-- A concrete report used to instantiate the universally quantified claims. -/
def demoReport : Report :=
  ⟨("Quarterly update").toList, [("Growth accelerating").toList],
   [⟨("Revenue").toList, ("$1M").toList⟩],
   [], [("Focus SMB").toList], [], [], [], [], ("High").toList,
   ⟨("Market Insights").toList, ("Today").toList,
    [[("Segment").toList, ("Revenue").toList]]⟩,
   ⟨("Chart preview").toList, [("Q1").toList, ("Q2").toList], [72]⟩,
   [("Add a summary tab").toList]⟩

/-- C9: determinism and idempotence — both exports are pure functions of the
report value alone (the embedding of the synchronous, state-free source), so
two invocations on equal inputs produce identical output texts and hence
byte-identical UTF-8 buffers. -/
theorem C9_deterministic (r1 r2 : Report) (h : r1 = r2) :
    exportCsvText r1 = exportCsvText r2 ∧ exportPdfText r1 = exportPdfText r2 := by
  subst h
  exact ⟨rfl, rfl⟩

/-- Closed instance of `C9_deterministic`: two invocations on the demo report
agree. -/
theorem C9_deterministic_witness :
    exportCsvText demoReport = exportCsvText demoReport ∧
    exportPdfText demoReport = exportPdfText demoReport :=
  C9_deterministic demoReport demoReport rfl

/-! ### The implicit chart edge case -/

theorem getD_take_lt {α : Type} (l : List α) (n i : Nat) (d : α) (h : i < n) :
    (l.take n).getD i d = l.getD i d := by
  rw [List.getD_eq_getElem?_getD, List.getD_eq_getElem?_getD, List.getElem?_take, if_pos h]

theorem chartLineEntries_getD (c : ChartPayload) (i : Nat) (h : i < c.labels.length) :
    (chartLineEntries c).getD i [] =
      c.labels.getD i [] ++ (": ").toList ++ intToStr (c.values.getD i 0) := by
  unfold chartLineEntries
  rw [List.getD_eq_getElem?_getD, List.getElem?_map, List.getElem?_enum,
    List.getElem?_eq_getElem h, List.getD_eq_getElem?_getD, List.getElem?_eq_getElem h]
  rfl

theorem chartCsvEntries_getD (c : ChartPayload) (i : Nat) (h : i < c.labels.length) :
    (chartCsvEntries c).getD i [] = [c.labels.getD i [], intToStr (c.values.getD i 0)] := by
  unfold chartCsvEntries
  rw [List.getD_eq_getElem?_getD, List.getElem?_map, List.getElem?_enum,
    List.getElem?_eq_getElem h, List.getD_eq_getElem?_getD, List.getElem?_eq_getElem h]
  rfl

theorem chartLineEntries_take (c : ChartPayload) :
    chartLineEntries ⟨c.title, c.labels, c.values.take c.labels.length⟩ =
      chartLineEntries c := by
  unfold chartLineEntries
  apply List.map_congr_left
  intro p hp
  obtain ⟨i, x⟩ := p
  obtain ⟨hi, hx⟩ := List.mem_enum hp
  show x ++ (": ").toList ++ intToStr ((c.values.take c.labels.length).getD i 0) = _
  rw [getD_take_lt c.values c.labels.length i 0 hi]

theorem chartCsvEntries_take (c : ChartPayload) :
    chartCsvEntries ⟨c.title, c.labels, c.values.take c.labels.length⟩ =
      chartCsvEntries c := by
  unfold chartCsvEntries
  apply List.map_congr_left
  intro p hp
  obtain ⟨i, x⟩ := p
  obtain ⟨hi, hx⟩ := List.mem_enum hp
  show [x, intToStr ((c.values.take c.labels.length).getD i 0)] = _
  rw [getD_take_lt c.values c.labels.length i 0 hi]

/-- The report with its chart values truncated to the label count. -/
def truncateChartValues (r : Report) : Report :=
  ⟨r.reportSummary, r.reportHighlights, r.reportMetrics, r.analysisOverview,
   r.analysisKeyPoints, r.analysisStructuredPlan, r.analysisOpportunities, r.analysisRisks,
   r.analysisDataAttribution, r.analysisConfidence, r.activeSheet,
   ⟨r.chartData.title, r.chartData.labels, r.chartData.values.take r.chartData.labels.length⟩,
   r.aiActions⟩

/-- C10: for every chart, both flattener outputs emit exactly one chart entry
per label; entry `i` renders label `i` with value `values[i]`, and when the
values list is shorter than the labels list the missing value renders as 0
(never failing or omitting the entry); values beyond the labels list are
dropped — truncating the values list to the label count changes neither
flattener output. -/
theorem C10_chart_defaults (c : ChartPayload) (r : Report) :
    (chartLineEntries c).length = c.labels.length ∧
    (chartCsvEntries c).length = c.labels.length ∧
    (∀ i, i < c.labels.length →
      (chartLineEntries c).getD i [] =
        c.labels.getD i [] ++ (": ").toList ++ intToStr (c.values.getD i 0) ∧
      (chartCsvEntries c).getD i [] = [c.labels.getD i [], intToStr (c.values.getD i 0)]) ∧
    (∀ i, i < c.labels.length → c.values.length ≤ i →
      (chartLineEntries c).getD i [] = c.labels.getD i [] ++ (": 0").toList ∧
      (chartCsvEntries c).getD i [] = [c.labels.getD i [], ("0").toList]) ∧
    chartLineEntries ⟨c.title, c.labels, c.values.take c.labels.length⟩ =
      chartLineEntries c ∧
    chartCsvEntries ⟨c.title, c.labels, c.values.take c.labels.length⟩ =
      chartCsvEntries c ∧
    buildReportLines (truncateChartValues r) = buildReportLines r ∧
    buildReportCsvRows (truncateChartValues r) = buildReportCsvRows r := by
  refine ⟨by simp [chartLineEntries, List.enum_length],
    by simp [chartCsvEntries, List.enum_length], ?_, ?_,
    chartLineEntries_take c, chartCsvEntries_take c, ?_, ?_⟩
  · intro i hi
    exact ⟨chartLineEntries_getD c i hi, chartCsvEntries_getD c i hi⟩
  · intro i hi hvi
    have hd : c.values.getD i 0 = 0 := List.getD_eq_default c.values 0 hvi
    constructor
    · rw [chartLineEntries_getD c i hi, hd, List.append_assoc]
      rfl
    · rw [chartCsvEntries_getD c i hi, hd]
      rfl
  · simp [buildReportLines, truncateChartValues, reportSummaryText, analysisOverviewText,
      chartLineEntries_take r.chartData]
  · simp [buildReportCsvRows, truncateChartValues, reportSummaryText, analysisOverviewText,
      chartCsvEntries_take r.chartData]

/-- Closed instance of `C10_chart_defaults` on the demo report's chart (two
labels, one value): two entries, and the second label's missing value renders
as 0. -/
theorem C10_chart_defaults_witness :
    (chartLineEntries demoReport.chartData).length = 2 ∧
    (chartLineEntries demoReport.chartData).getD 1 [] = ("Q2: 0").toList := by
  obtain ⟨h1, h2, h3, h4, h5, h6, h7, h8⟩ := C10_chart_defaults demoReport.chartData demoReport
  constructor
  · rw [h1]
    rfl
  · rw [(h4 1 (by decide) (by decide)).1]
    decide

/-! ### Section order and skipping -/

/-- A report whose chart has a non-empty title but an empty labels list, and
whose optional sections are all empty. -/
def emptyChartReport : Report :=
  ⟨("Summary").toList, [], [], ("Overview").toList, [], [], [], [], [], [],
   ⟨("Sheet").toList, ("Today").toList, []⟩,
   ⟨("Chart preview").toList, [], [72, 88]⟩, []⟩

/-- C8: the claim fails on its skipping clause: with an empty chart labels
list the chart section's backing list is empty, yet both flatteners still
emit its header — the line output contains the chart title line and the row
output contains the `Chart`/title row and the `Label`/`Value` header row.
(The claimed fixed order is also inaccurate for the row output, which inserts
a blank row between the spreadsheet name/stamp row and the sheet rows.) -/
theorem C8_counterexample :
    emptyChartReport.chartData.labels = [] ∧
    ("Chart preview").toList ∈ buildReportLines emptyChartReport ∧
    [("Chart").toList, ("Chart preview").toList] ∈ buildReportCsvRows emptyChartReport ∧
    [("Label").toList, ("Value").toList] ∈ buildReportCsvRows emptyChartReport := by
  refine ⟨rfl, ?_, ?_, ?_⟩ <;> decide

/-- C8 (amended): both flatteners enumerate the sections in the fixed order
summary, highlights, metrics, blank, analysis overview, key points,
structured plan, opportunities, risks, attribution, confidence, blank,
spreadsheet name/stamp, (in the row output an extra blank,) spreadsheet rows,
blank, chart (the line output emits the chart title, the row output a
`Chart`/title row and a `Label`/`Value` header row), chart entries, then
optionally blank plus actions.  The sections backed by highlights, metrics,
key points, structured plan, opportunities, risks, attribution, confidence
and actions are skipped entirely — no header — when their backing list or
string is empty (visible as the `if … then []` blocks below); the summary and
analysis overview instead fall back to fixed default text, and the
spreadsheet name/stamp and the chart title/header rows are emitted even when
the sheet rows or chart labels are empty. -/
theorem C8_section_order (r : Report) :
    buildReportLines r =
      [("Report summary").toList, reportSummaryText r] ++
      (if r.reportHighlights = [] then []
        else ("Highlights").toList :: r.reportHighlights.map bullet) ++
      (if r.reportMetrics = [] then []
        else ("Metrics").toList ::
          r.reportMetrics.map (fun m => m.label ++ (": ").toList ++ m.value)) ++
      [[]] ++
      [("Strategic analysis layer").toList, analysisOverviewText r] ++
      (if r.analysisKeyPoints = [] then []
        else ("Key points").toList :: r.analysisKeyPoints.map bullet) ++
      (if r.analysisStructuredPlan = [] then []
        else ("Structured plan").toList :: r.analysisStructuredPlan.map bullet) ++
      (if r.analysisOpportunities = [] then []
        else ("Opportunities").toList :: r.analysisOpportunities.map bullet) ++
      (if r.analysisRisks = [] then []
        else ("Risks").toList :: r.analysisRisks.map bullet) ++
      (if r.analysisDataAttribution = [] then []
        else ("Data attribution").toList ::
          r.analysisDataAttribution.map
            (fun a => bullet (a.source ++ (": ").toList ++ a.notes))) ++
      (if r.analysisConfidence = [] then []
        else [("Confidence: ").toList ++ r.analysisConfidence]) ++
      [[]] ++
      [r.activeSheet.name ++ (" (Last updated ").toList ++
        r.activeSheet.lastUpdated ++ (")").toList] ++
      r.activeSheet.rows.map (fun row => List.intercalate ((" | ").toList) row) ++
      [[]] ++
      [r.chartData.title] ++
      chartLineEntries r.chartData ++
      (if r.aiActions = [] then []
        else [] :: ("AI actions").toList :: r.aiActions.map bullet) ∧
    buildReportCsvRows r =
      [[("Report summary").toList, reportSummaryText r]] ++
      (if r.reportHighlights = [] then []
        else [("Highlights").toList] :: r.reportHighlights.map (fun i => [i])) ++
      (if r.reportMetrics = [] then []
        else [("Metrics").toList] :: r.reportMetrics.map (fun m => [m.label, m.value])) ++
      [[]] ++
      [[("Strategic analysis layer").toList, analysisOverviewText r]] ++
      (if r.analysisKeyPoints = [] then []
        else [("Key points").toList] :: r.analysisKeyPoints.map (fun i => [i])) ++
      (if r.analysisStructuredPlan = [] then []
        else [("Structured plan").toList] :: r.analysisStructuredPlan.map (fun i => [i])) ++
      (if r.analysisOpportunities = [] then []
        else [("Opportunities").toList] :: r.analysisOpportunities.map (fun i => [i])) ++
      (if r.analysisRisks = [] then []
        else [("Risks").toList] :: r.analysisRisks.map (fun i => [i])) ++
      (if r.analysisDataAttribution = [] then []
        else [("Data attribution").toList] ::
          r.analysisDataAttribution.map (fun a => [a.source ++ (": ").toList ++ a.notes])) ++
      (if r.analysisConfidence = [] then []
        else [[("Confidence").toList, r.analysisConfidence]]) ++
      [[]] ++
      [[r.activeSheet.name, ("Last updated ").toList ++ r.activeSheet.lastUpdated]] ++
      [[]] ++
      r.activeSheet.rows ++
      [[]] ++
      [[("Chart").toList, r.chartData.title]] ++
      [[("Label").toList, ("Value").toList]] ++
      chartCsvEntries r.chartData ++
      (if r.aiActions = [] then []
        else [] :: [("AI actions").toList] :: r.aiActions.map (fun a => [a])) := by
  refine ⟨?_, ?_⟩
  · simp [buildReportLines, List.append_assoc]
  · simp [buildReportCsvRows, List.append_assoc]

/-- Closed instance of `C8_section_order` on the demo report: its first
flattened line is the summary header. -/
theorem C8_section_order_witness :
    (buildReportLines demoReport).getD 0 [] = ("Report summary").toList := by
  have h := (C8_section_order demoReport).1
  rw [h]
  decide

end ModelMaker
